import Mathlib

/-!
Verification of the core of the terminal Mandelbrot explorer
(`src/main.rs`).

The source's `f64` arithmetic is modelled by exact rational arithmetic
(`ℚ`): every claim under scrutiny is a statement about the exact real
arithmetic the code implements, not about rounding.  The bailout test
`z.norm() > 2.0` is modelled as `normSq z > 4`, which is equivalent for
exact arithmetic since both sides are nonnegative.  Machine integers
(`u16`, `usize`, `u8`) are modelled as `Nat` with explicit `% 2 ^ w`
where the source can overflow, and with explicit truncating/saturating
casts where the source casts floats to integers.
-/

set_option maxHeartbeats 1000000

namespace Mandelbrot

/-- Complex number as a pair of exact rationals, modelling
`num::complex::Complex<f64>`. -/
structure Complex where
  re : ℚ
  im : ℚ
deriving DecidableEq, Repr

/-- Complex addition, componentwise. -/
def Complex.add (a b : Complex) : Complex := ⟨a.re + b.re, a.im + b.im⟩

/-- Complex multiplication. -/
def Complex.mul (a b : Complex) : Complex :=
  ⟨a.re * b.re - a.im * b.im, a.re * b.im + a.im * b.re⟩

/-- Squared magnitude; `z.norm() > 2.0` in the source is modelled as
`normSq z > 4`. -/
def Complex.normSq (a : Complex) : ℚ := a.re * a.re + a.im * a.im

/-- The loop body of `calculate_instability`: `z` is the current value of
`prev_z`, `i` the Rust loop variable `iteration`, and `fuel` the number of
loop iterations still to run (`max_iterations - i + 1`). -/
def instLoop (c : Complex) (z : Complex) (i : Nat) : Nat → Nat
  | 0 => 0
  | fuel + 1 =>
    let z' := (z.mul z).add c
    if 4 < z'.normSq then i else instLoop c z' (i + 1) fuel

/-- Model of `calculate_instability(c, max_iterations)` (src/main.rs:43-52):
iterate `z_{n+1} = z_n^2 + c` from `z_0 = 0` for `iteration` in
`1..=max_iterations`, returning `iteration` as soon as the magnitude
exceeds 2, and the sentinel `0` if it never does. -/
def calculate_instability (c : Complex) (max_iterations : Nat) : Nat :=
  instLoop c ⟨0, 0⟩ 1 max_iterations

/-- The orbit `z_0 = 0`, `z_{n+1} = z_n^2 + c` of the Mandelbrot recurrence,
used to specify `calculate_instability`. -/
def zseq (c : Complex) : Nat → Complex
  | 0 => ⟨0, 0⟩
  | n + 1 => ((zseq c n).mul (zseq c n)).add c

/-- Truncation toward zero of a rational, modelling Rust's `as` cast from
`f64` to an integer type before saturation is applied. -/
def ratTrunc (q : ℚ) : Int := q.num.tdiv q.den

/-- Saturating cast to `u8` (Rust `as u8` from `f64`): truncate toward
zero, clamp to `[0, 255]`. -/
def toU8 (q : ℚ) : Nat := min 255 (ratTrunc q).toNat

/-- Saturating cast to `usize` (Rust `as usize` from `f64`): truncate
toward zero, clamp below at `0` (the `usize::MAX` clamp is irrelevant at
the values that occur). -/
def toUsize (q : ℚ) : Nat := (ratTrunc q).toNat

/-- Model of `lerp(perc, low, high)` (src/main.rs:5-19): clamp `perc` to
`[0, 1]`, blend the two channel values, cast back to `u8`. -/
def lerp (perc : ℚ) (low high : Nat) : Nat :=
  let percentage : ℚ := if perc < 1 then (if 0 < perc then perc else 0) else 1
  toU8 ((low : ℚ) + (((high : ℚ) - (low : ℚ)) * percentage))

/-- The fixed five-anchor palette of `scale_color` (src/main.rs:23-29). -/
def colors : List (Nat × Nat × Nat) :=
  [(13, 0, 51), (20, 28, 132), (111, 118, 210), (220, 106, 136), (240, 120, 140)]

/-- The lower palette anchor index chosen by `scale_color`
(src/main.rs:35): `(percentage * ((colors.len() - 2) as f64)) as usize`. -/
def low_index (value max_value : Nat) : Nat :=
  toUsize (((value : ℚ) / (max_value : ℚ)) * ((colors.length - 2 : Nat) : ℚ))

/-- Model of `scale_color(value, max_value)` (src/main.rs:21-41). The
palette accesses `colors[low_index]` and `colors[low_index + 1]` are
modelled with a default; in-bounds access is what claim C10 settles. -/
def scale_color (value max_value : Nat) : Nat × Nat × Nat :=
  if value = 0 then (0, 0, 0)
  else
    let percentage : ℚ := (value : ℚ) / (max_value : ℚ)
    let li := low_index value max_value
    let lowc := colors.getD li (0, 0, 0)
    let highc := colors.getD (li + 1) (0, 0, 0)
    (lerp percentage lowc.1 highc.1,
     lerp percentage lowc.2.1 highc.2.1,
     lerp percentage lowc.2.2 highc.2.2)

/-- Model of `generate_mandelbrot` (src/main.rs:54-84): nested row-major
loops pushing one instability value per cell and accumulating the running
maximum in the same pass. -/
def generate_mandelbrot (x_min x_max y_min y_max : ℚ)
    (width height : Nat) (max_iterations : Nat) : List Nat × Nat :=
  let width_delta := (x_max - x_min) / (width : ℚ)
  let height_delta := (y_max - y_min) / (height : ℚ)
  (List.range height).foldl
    (fun (acc : List Nat × Nat) (height_interval : Nat) =>
      (List.range width).foldl
        (fun (acc2 : List Nat × Nat) (width_interval : Nat) =>
          let x_pt := (x_min + (width_delta / 2)) + ((width_interval : ℚ) * width_delta)
          let y_pt := (y_min + (height_delta / 2)) + ((height_interval : ℚ) * height_delta)
          let instability := calculate_instability ⟨x_pt, y_pt⟩ max_iterations
          (acc2.1 ++ [instability],
           if acc2.2 < instability then instability else acc2.2)) acc)
    ([], 0)

/-- The plane-space sample point of the cell in row `hi`, column `wi`, and
its instability value: the body of the inner loop of
`generate_mandelbrot`, used to specify the grid's contents. -/
def cellValue (x_min x_max y_min y_max : ℚ) (width height : Nat)
    (max_iterations : Nat) (hi wi : Nat) : Nat :=
  calculate_instability
    ⟨(x_min + (((x_max - x_min) / (width : ℚ)) / 2)) +
       ((wi : ℚ) * ((x_max - x_min) / (width : ℚ))),
     (y_min + (((y_max - y_min) / (height : ℚ)) / 2)) +
       ((hi : ℚ) * ((y_max - y_min) / (height : ℚ)))⟩ max_iterations

/-- Model of `get_bounds` (src/main.rs:134-167): naive centre-plus-half-
extent bounds followed by the aspect-ratio correction step.  The source's
two separate `if` statements are kept (their guards are mutually
exclusive). -/
def get_bounds (origin_x origin_y x_size y_size : ℚ)
    (terminal_width terminal_height : Nat) : ℚ × ℚ × ℚ × ℚ :=
  let x_size := |x_size|
  let y_size := |y_size|
  let x_min := origin_x - (x_size * (1/2))
  let x_max := origin_x + (x_size * (1/2))
  let y_min := origin_y - (y_size * (1/2))
  let y_max := origin_y + (y_size * (1/2))
  let x_ratio := (x_max - x_min) / (terminal_width : ℚ)
  let y_ratio := ((y_max - y_min) / (terminal_height : ℚ)) / (5/2)
  let yb :=
    if x_ratio > y_ratio then
      let y_size := (terminal_height : ℚ) * x_ratio
      (y_min - y_size / 2, y_max + y_size / 2)
    else (y_min, y_max)
  let xb :=
    if y_ratio > x_ratio then
      let x_size := (terminal_width : ℚ) * y_ratio
      (x_min - x_size / 2, x_max + x_size / 2)
    else (x_min, x_max)
  (xb.1, xb.2, yb.1, yb.2)

/-- Checked model of `width as usize - 1` (src/main.rs:368): the
subtraction underflows (panics in a debug build) when the reported
dimension is `0`. -/
def usizeSub1 (w : Nat) : Option Nat :=
  if 1 ≤ w then some (w - 1) else none

/-- Model of the resize handler's stored dimensions (src/main.rs:367-369):
both reported dimensions decremented by one, `none` when either
subtraction underflows. -/
def resize_dims (w h : Nat) : Option (Nat × Nat) :=
  match usizeSub1 w, usizeSub1 h with
  | some a, some b => some (a, b)
  | _, _ => none

/-- Model of the startup dimension computation (src/main.rs:247-250):
`terminal::size()` result decremented componentwise on success, the
fallback `(80, 80)` on failure. -/
def startup_dims (r : Option (Nat × Nat)) : Option (Nat × Nat) :=
  match r with
  | some (w, h) => resize_dims w h
  | none => some (80, 80)

/-- Mouse buttons of the input layer (crossterm `MouseButton`). -/
inductive MouseButton
  | Left
  | Right
  | Middle
deriving DecidableEq, Repr

/-- Mouse event kinds: a button press, or any of the other kinds (up,
drag, move, scroll), which the source ignores (src/main.rs:364). -/
inductive MouseKind
  | Down (button : MouseButton)
  | Other
deriving DecidableEq, Repr

/-- Input events delivered to the interaction loop (src/main.rs:284-374):
a character key, any non-character key, a mouse event at `(row, column)`,
a terminal resize, or a failed event read (ignored by the source). -/
inductive Event
  | Key (c : Char)
  | KeyOther
  | Mouse (kind : MouseKind) (row column : Nat)
  | Resize (width height : Nat)
  | ReadError
deriving DecidableEq, Repr

/-- The mutable state of the interaction loop (src/main.rs:246-281):
terminal dimensions, view origin and extents, iteration budget, zoom
factor, the plane bounds of the most recent redraw, the dirty flag and
the three overlay flags. -/
structure AppState where
  terminal_width : Nat
  terminal_height : Nat
  origin_x : ℚ
  origin_y : ℚ
  x_size : ℚ
  y_size : ℚ
  iterations : Nat
  zoom_factor : ℚ
  bounds : ℚ × ℚ × ℚ × ℚ
  changed : Bool
  show_help : Bool
  show_iterations : Bool
  show_coords : Bool
deriving DecidableEq, Repr

/-- The initial interaction state (src/main.rs:252-281), parameterised by
the stored terminal dimensions. -/
def initialState (tw th : Nat) : AppState where
  terminal_width := tw
  terminal_height := th
  origin_x := -3/4
  origin_y := 0
  x_size := 3
  y_size := 3
  iterations := 50
  zoom_factor := 1/4
  bounds := (0, 0, 0, 0)
  changed := true
  show_help := true
  show_iterations := false
  show_coords := false

/-- The `'i'` key transition on the iteration budget (src/main.rs:303-312).
The budget is a `u16`, so each addition is reduced modulo `2 ^ 16`
(release-build wrapping semantics; only the `+ 1000` branch can actually
wrap for in-range inputs). -/
def iter_inc (it : Nat) : Nat :=
  if 1000 ≤ it then (it + 1000) % 65536
  else if 100 ≤ it then (it + 100) % 65536
  else if 10 ≤ it then (it + 10) % 65536
  else (it + 1) % 65536

/-- The `'j'` key transition on the iteration budget (src/main.rs:317-328):
staged decrements with a floor of `1`; the guards keep every subtraction
in range. -/
def iter_dec (it : Nat) : Nat :=
  if 2000 ≤ it then it - 1000
  else if 200 ≤ it then it - 100
  else if 20 ≤ it then it - 10
  else if 2 ≤ it then it - 1
  else 1

/-- Model of one pass through the event `match` of the interaction loop
(src/main.rs:284-375).  Help/status printing is pure output and carries no
state; `'q'` breaks the loop (state unchanged here); a failed read is
ignored.  On any mouse button press the origin is recomputed from the
click position and the bounds of the most recent redraw BEFORE the button
is inspected, so it happens for the middle button as well
(src/main.rs:343-348).  The resize handler stores `reported - 1` with
64-bit wrap-around (debug builds panic instead when a dimension is `0`;
claim C9 treats that via `resize_dims`). -/
def handle_event (s : AppState) (e : Event) : AppState :=
  match e with
  | .Key c =>
    if c = 'q' then s
    else if c = 'r' then
      { s with origin_x := -3/4, origin_y := 0, x_size := 3, y_size := 3,
               iterations := 50, changed := true }
    else if c = 'c' then { s with show_coords := true, changed := true }
    else if c = 'i' then
      { s with iterations := iter_inc s.iterations, show_iterations := true,
               changed := true }
    else if c = 'j' then
      { s with iterations := iter_dec s.iterations, show_iterations := true,
               changed := true }
    else s
  | .KeyOther => s
  | .Mouse kind row column =>
    match kind with
    | .Down button =>
      let s' := { s with
        origin_x := (((column : ℚ) / (s.terminal_width : ℚ)) *
          (s.bounds.2.1 - s.bounds.1)) + s.bounds.1,
        origin_y := (((row : ℚ) / (s.terminal_height : ℚ)) *
          (s.bounds.2.2.2 - s.bounds.2.2.1)) + s.bounds.2.2.1 }
      match button with
      | .Left =>
        { s' with x_size := s'.x_size * s'.zoom_factor,
                  y_size := s'.y_size * s'.zoom_factor, changed := true }
      | .Right =>
        { s' with x_size := s'.x_size / s'.zoom_factor,
                  y_size := s'.y_size / s'.zoom_factor, changed := true }
      | .Middle => s'
    | .Other => s
  | .Resize w h =>
    { s with terminal_width := (w + (2 ^ 64 - 1)) % 2 ^ 64,
             terminal_height := (h + (2 ^ 64 - 1)) % 2 ^ 64,
             changed := true, show_help := true }
  | .ReadError => s

/-- The status panels the redraw step can print (src/main.rs:398-407). -/
inductive Overlay
  | help
  | iterations
  | coords
deriving DecidableEq, Repr

/-- Model of the redraw block of the interaction loop (src/main.rs:377-408):
when the dirty flag is set, recompute the plane bounds, render (pure
output), clear the dirty flag, then print at most one overlay — help
first, else the iteration count, else the coordinates — clearing exactly
the flag of the overlay that was printed.  Returns the new state and
which overlay, if any, was printed. -/
def redraw (s : AppState) : AppState × Option Overlay :=
  if s.changed then
    let s := { s with
      bounds := get_bounds s.origin_x s.origin_y s.x_size s.y_size
        s.terminal_width s.terminal_height,
      changed := false }
    if s.show_help then ({ s with show_help := false }, some .help)
    else if s.show_iterations then
      ({ s with show_iterations := false }, some .iterations)
    else if s.show_coords then ({ s with show_coords := false }, some .coords)
    else (s, none)
  else (s, none)

/-- One full iteration of the interaction loop: handle the next event,
then redraw when dirty. -/
def step (s : AppState) (e : Event) : AppState :=
  (redraw (handle_event s e)).1

/-- Characterisation of the escape loop: starting from the `i`-th orbit
point with loop counter `i + 1` and `fuel` iterations left, it returns `0`
when no orbit point in `(i, i + fuel]` escapes, and otherwise the first
index in that window whose orbit point escapes. -/
lemma instLoop_spec (c : Complex) :
    ∀ (fuel i : Nat),
      (instLoop c (zseq c i) (i + 1) fuel = 0 ∧
        ∀ n, i < n → n ≤ i + fuel → ¬ 4 < (zseq c n).normSq) ∨
      (∃ n, i < n ∧ n ≤ i + fuel ∧ instLoop c (zseq c i) (i + 1) fuel = n ∧
        4 < (zseq c n).normSq ∧ ∀ m, i < m → m < n → ¬ 4 < (zseq c m).normSq) := by
  intro fuel
  induction fuel with
  | zero =>
    intro i
    left
    exact ⟨rfl, fun n hn hn' => absurd (lt_of_lt_of_le hn hn') (by omega)⟩
  | succ f ih =>
    intro i
    have hz : ((zseq c i).mul (zseq c i)).add c = zseq c (i + 1) := rfl
    by_cases hesc : 4 < (zseq c (i + 1)).normSq
    · right
      refine ⟨i + 1, by omega, by omega, ?_, hesc, fun m hm hm' => by omega⟩
      simp [instLoop, hz, hesc]
    · have hstep : instLoop c (zseq c i) (i + 1) (f + 1) =
          instLoop c (zseq c (i + 1)) (i + 1 + 1) f := by
        simp [instLoop, hz, hesc]
      rcases ih (i + 1) with ⟨h0, hall⟩ | ⟨n, hn1, hn2, hn3, hn4, hn5⟩
      · left
        refine ⟨by rw [hstep]; exact h0, fun n hn hn' => ?_⟩
        rcases Nat.eq_or_lt_of_le (Nat.succ_le_of_lt hn) with h | h
        · exact h ▸ hesc
        · exact hall n h (by omega)
      · right
        refine ⟨n, by omega, by omega, by rw [hstep]; exact hn3, hn4,
          fun m hm hm' => ?_⟩
        rcases Nat.eq_or_lt_of_le (Nat.succ_le_of_lt hm) with h | h
        · exact h ▸ hesc
        · exact hn5 m h hm'

/-- C1: for every complex point `c` and every `max_iterations ≥ 1`,
`calculate_instability c max_iterations` lies in `{0} ∪ {1..max_iterations}`;
it is `0` exactly when no orbit point `z_n` (`1 ≤ n ≤ max_iterations`) has
magnitude above 2 (i.e. squared magnitude above 4), and otherwise it is
the first index `n ≥ 1` whose orbit point escapes. -/
theorem calculate_instability_spec (c : Complex) (m : Nat) (hm : 1 ≤ m) :
    calculate_instability c m ≤ m ∧
    (calculate_instability c m = 0 ↔
      ∀ n, 1 ≤ n → n ≤ m → ¬ 4 < (zseq c n).normSq) ∧
    (1 ≤ calculate_instability c m →
      4 < (zseq c (calculate_instability c m)).normSq ∧
      ∀ n, 1 ≤ n → n < calculate_instability c m → ¬ 4 < (zseq c n).normSq) := by
  have hbase : calculate_instability c m = instLoop c (zseq c 0) (0 + 1) m := rfl
  rcases instLoop_spec c m 0 with ⟨h0, hall⟩ | ⟨n, hn1, hn2, hn3, hn4, hn5⟩
  · rw [hbase, h0]
    refine ⟨Nat.zero_le m, ⟨fun _ n hn hn' => hall n hn (by omega), fun _ => rfl⟩,
      fun h => absurd h (by omega)⟩
  · rw [hbase, hn3]
    refine ⟨by omega, ⟨fun h => absurd h (by omega), fun h => absurd (h n hn1 (by omega)) (by simp [hn4])⟩,
      fun _ => ⟨hn4, fun k hk hk' => hn5 k hk hk'⟩⟩

/-- Witness for C1 at the escaping point `c = (2, 2)` with budget 1. -/
theorem calculate_instability_spec_witness :
    calculate_instability ⟨2, 2⟩ 1 ≤ 1 ∧
    (calculate_instability ⟨2, 2⟩ 1 = 0 ↔
      ∀ n, 1 ≤ n → n ≤ 1 → ¬ 4 < (zseq ⟨2, 2⟩ n).normSq) ∧
    (1 ≤ calculate_instability ⟨2, 2⟩ 1 →
      4 < (zseq ⟨2, 2⟩ (calculate_instability ⟨2, 2⟩ 1)).normSq ∧
      ∀ n, 1 ≤ n → n < calculate_instability ⟨2, 2⟩ 1 →
        ¬ 4 < (zseq ⟨2, 2⟩ n).normSq) :=
  calculate_instability_spec ⟨2, 2⟩ 1 (le_refl 1)

lemma ratTrunc_natCast (n : Nat) : ratTrunc (n : ℚ) = n := by
  simp [ratTrunc]

lemma toU8_natCast (n : Nat) (h : n ≤ 255) : toU8 (n : ℚ) = n := by
  simp [toU8, ratTrunc_natCast]
  omega

lemma lerp_one (a b : Nat) (hb : b ≤ 255) : lerp 1 a b = b := by
  simp [lerp]
  exact toU8_natCast b hb

/-- C5: for every `v ≥ 1`, `scale_color v v` (percentage exactly 1) returns
the final palette anchor `(240, 120, 140)`: the anchor index selects the
last bucket and the clamped interpolation collapses to the upper anchor. -/
theorem scale_color_max (v : Nat) (hv : 1 ≤ v) : scale_color v v = (240, 120, 140) := by
  have hvq : ((v : ℚ)) ≠ 0 := Nat.cast_ne_zero.mpr (by omega)
  have hp : (v : ℚ) / (v : ℚ) = 1 := div_self hvq
  have hli : low_index v v = 3 := by
    simp [low_index, hp, colors, toUsize, ratTrunc]
  rw [scale_color, if_neg (by omega)]
  simp only [hp, hli]
  norm_num [colors, lerp_one]

/-- Witness for C5 at `v = 5`. -/
theorem scale_color_max_witness : scale_color 5 5 = (240, 120, 140) :=
  scale_color_max 5 (by norm_num)

lemma foldl_push_max (g : Nat → Nat) (l : List Nat) (acc : List Nat × Nat) :
    l.foldl (fun a x => (a.1 ++ [g x], if a.2 < g x then g x else a.2)) acc
      = (acc.1 ++ l.map g,
         (l.map g).foldl (fun a v => if a < v then v else a) acc.2) := by
  induction l generalizing acc with
  | nil => simp
  | cons x xs ih => simp [ih]

lemma foldl_concat_max (f : Nat → List Nat) (l : List Nat) (acc : List Nat × Nat) :
    l.foldl (fun a x =>
        (a.1 ++ f x, (f x).foldl (fun a v => if a < v then v else a) a.2)) acc
      = (acc.1 ++ l.flatMap f,
         (l.flatMap f).foldl (fun a v => if a < v then v else a) acc.2) := by
  induction l generalizing acc with
  | nil => simp
  | cons x xs ih => simp [ih, List.foldl_append]

lemma generate_mandelbrot_eq (x_min x_max y_min y_max : ℚ) (w h m : Nat) :
    generate_mandelbrot x_min x_max y_min y_max w h m =
      ((List.range h).flatMap (fun hi => (List.range w).map
          (cellValue x_min x_max y_min y_max w h m hi)),
       ((List.range h).flatMap (fun hi => (List.range w).map
          (cellValue x_min x_max y_min y_max w h m hi))).foldl
          (fun a v => if a < v then v else a) 0) := by
  have hinner : ∀ (hi : Nat) (acc : List Nat × Nat),
      (List.range w).foldl (fun acc2 wi =>
        (acc2.1 ++ [cellValue x_min x_max y_min y_max w h m hi wi],
         if acc2.2 < cellValue x_min x_max y_min y_max w h m hi wi then
           cellValue x_min x_max y_min y_max w h m hi wi else acc2.2)) acc
        = (acc.1 ++ (List.range w).map (cellValue x_min x_max y_min y_max w h m hi),
           ((List.range w).map (cellValue x_min x_max y_min y_max w h m hi)).foldl
             (fun a v => if a < v then v else a) acc.2) :=
    fun hi acc => foldl_push_max _ _ acc
  simp only [generate_mandelbrot, cellValue] at hinner ⊢
  simp only [hinner]
  rw [foldl_concat_max]
  simp

lemma gridList_length (g : Nat → Nat → Nat) (w h : Nat) :
    ((List.range h).flatMap (fun hi => (List.range w).map (g hi))).length = h * w := by
  induction h with
  | zero => simp
  | succ n ih =>
    rw [List.range_succ, List.flatMap_append]
    simp [ih, Nat.succ_mul]

lemma gridList_getElem (g : Nat → Nat → Nat) (w h row col : Nat)
    (hrow : row < h) (hcol : col < w) :
    ((List.range h).flatMap (fun hi => (List.range w).map (g hi)))[row * w + col]?
      = some (g row col) := by
  induction h with
  | zero => omega
  | succ n ih =>
    rw [List.range_succ, List.flatMap_append]
    rcases Nat.lt_or_ge row n with h1 | h1
    · have hlen : row * w + col <
          ((List.range n).flatMap (fun hi => (List.range w).map (g hi))).length := by
        rw [gridList_length]
        have h2 : (row + 1) * w ≤ n * w := Nat.mul_le_mul_right w h1
        rw [Nat.succ_mul] at h2
        omega
      rw [List.getElem?_append, if_pos hlen]
      exact ih h1
    · have hrn : row = n := by omega
      subst hrn
      have hlen : ((List.range row).flatMap (fun hi => (List.range w).map (g hi))).length
          = row * w := gridList_length g w row
      rw [List.getElem?_append, if_neg (by rw [hlen]; omega), hlen]
      simp only [List.flatMap_cons, List.flatMap_nil, List.append_nil]
      have : row * w + col - row * w = col := by omega
      rw [this, List.getElem?_map, List.getElem?_range hcol]
      rfl

lemma foldl_maxOp_init_le (l : List Nat) (a : Nat) :
    a ≤ l.foldl (fun a v => if a < v then v else a) a := by
  induction l generalizing a with
  | nil => simp
  | cons x xs ih =>
    simp only [List.foldl_cons]
    rcases Nat.lt_or_ge a x with h | h
    · simp only [if_pos h]
      exact le_trans (le_of_lt h) (ih x)
    · simp only [if_neg (Nat.not_lt.mpr h)]
      exact ih a

lemma foldl_maxOp_le (l : List Nat) (a : Nat) :
    ∀ v ∈ l, v ≤ l.foldl (fun a v => if a < v then v else a) a := by
  induction l generalizing a with
  | nil => simp
  | cons x xs ih =>
    intro v hv
    simp only [List.foldl_cons]
    rcases List.mem_cons.mp hv with h | h
    · subst h
      rcases Nat.lt_or_ge a v with h2 | h2
      · simp only [if_pos h2]
        exact foldl_maxOp_init_le xs v
      · simp only [if_neg (Nat.not_lt.mpr h2)]
        exact le_trans h2 (foldl_maxOp_init_le xs a)
    · exact ih _ v h

lemma foldl_maxOp_mem (l : List Nat) (a : Nat) :
    l.foldl (fun a v => if a < v then v else a) a = a ∨
    l.foldl (fun a v => if a < v then v else a) a ∈ l := by
  induction l generalizing a with
  | nil => simp
  | cons x xs ih =>
    simp only [List.foldl_cons]
    rcases ih (if a < x then x else a) with h | h
    · rcases Nat.lt_or_ge a x with h2 | h2
      · right
        rw [h, if_pos h2]
        exact List.mem_cons_self x xs
      · left
        rw [h, if_neg (Nat.not_lt.mpr h2)]
    · right
      exact List.mem_cons_of_mem x h

/-- C2: for every bounds rectangle and `width, height, max_iterations ≥ 1`,
the grid returned by `generate_mandelbrot` has length `width * height`, is
row-major (the cell at `(row, col)` sits at index `row * width + col` and
equals `calculate_instability` at the cell centre
`(x_min + width_delta/2 + col * width_delta,
y_min + height_delta/2 + row * height_delta)`), and the returned
`max_value` is the maximum of all cell values (an upper bound that is
attained unless it is 0). -/
theorem generate_mandelbrot_spec (x_min x_max y_min y_max : ℚ) (w h m : Nat)
    (hw : 1 ≤ w) (hh : 1 ≤ h) (hm : 1 ≤ m) :
    (generate_mandelbrot x_min x_max y_min y_max w h m).1.length = w * h ∧
    (∀ row col, row < h → col < w →
      (generate_mandelbrot x_min x_max y_min y_max w h m).1[row * w + col]? =
        some (calculate_instability
          ⟨x_min + ((x_max - x_min) / (w : ℚ)) / 2 + (col : ℚ) * ((x_max - x_min) / (w : ℚ)),
           y_min + ((y_max - y_min) / (h : ℚ)) / 2 + (row : ℚ) * ((y_max - y_min) / (h : ℚ))⟩
          m)) ∧
    (∀ v ∈ (generate_mandelbrot x_min x_max y_min y_max w h m).1,
        v ≤ (generate_mandelbrot x_min x_max y_min y_max w h m).2) ∧
    ((generate_mandelbrot x_min x_max y_min y_max w h m).2 = 0 ∨
      (generate_mandelbrot x_min x_max y_min y_max w h m).2
        ∈ (generate_mandelbrot x_min x_max y_min y_max w h m).1) := by
  rw [generate_mandelbrot_eq]
  refine ⟨?_, ?_, ?_, ?_⟩
  · rw [gridList_length]
    exact Nat.mul_comm h w
  · intro row col hr hc
    rw [gridList_getElem _ w h row col hr hc]
    rfl
  · exact foldl_maxOp_le _ 0
  · rcases foldl_maxOp_mem
      ((List.range h).flatMap (fun hi => (List.range w).map
        (cellValue x_min x_max y_min y_max w h m hi))) 0 with h0 | hmem
    · exact Or.inl h0
    · exact Or.inr hmem

/-- Witness for C2 on a 1-by-1 grid over `[0, 4] x [0, 4]` with budget 1. -/
theorem generate_mandelbrot_spec_witness :
    (generate_mandelbrot 0 4 0 4 1 1 1).1.length = 1 * 1 ∧
    (∀ (row col : Nat), row < 1 → col < 1 →
      (generate_mandelbrot 0 4 0 4 1 1 1).1[row * 1 + col]? =
        some (calculate_instability
          ⟨0 + ((4 - 0) / ((1 : Nat) : ℚ)) / 2 + (col : ℚ) * ((4 - 0) / ((1 : Nat) : ℚ)),
           0 + ((4 - 0) / ((1 : Nat) : ℚ)) / 2 + (row : ℚ) * ((4 - 0) / ((1 : Nat) : ℚ))⟩
          1)) ∧
    (∀ v ∈ (generate_mandelbrot 0 4 0 4 1 1 1).1,
        v ≤ (generate_mandelbrot 0 4 0 4 1 1 1).2) ∧
    ((generate_mandelbrot 0 4 0 4 1 1 1).2 = 0 ∨
      (generate_mandelbrot 0 4 0 4 1 1 1).2 ∈ (generate_mandelbrot 0 4 0 4 1 1 1).1) :=
  generate_mandelbrot_spec 0 4 0 4 1 1 1 (le_refl 1) (le_refl 1) (le_refl 1)

lemma ratTrunc_toNat_le (q : ℚ) (h0 : 0 ≤ q) (h3 : q ≤ 3) : (ratTrunc q).toNat ≤ 3 := by
  have hden : (0 : ℚ) < (q.den : ℚ) := by positivity
  have hq : (q.num : ℚ) / (q.den : ℚ) = q := Rat.num_div_den q
  have hnumq : (q.num : ℚ) ≤ 3 * (q.den : ℚ) := by
    rw [← hq] at h3
    exact (div_le_iff₀ hden).mp h3
  have hnum : q.num ≤ 3 * (q.den : Int) := by exact_mod_cast hnumq
  have hnn : 0 ≤ q.num := Rat.num_nonneg.mpr h0
  have hrt : ratTrunc q = ((q.num.toNat / q.den : Nat) : Int) := by
    rw [ratTrunc, ← Int.toNat_of_nonneg hnn, Int.ofNat_tdiv]
    simp
  rw [hrt]
  have hle : q.num.toNat ≤ 3 * q.den := by omega
  have hdiv := Nat.div_le_div_right (c := q.den) hle
  rw [Nat.mul_div_cancel 3 q.pos] at hdiv
  omega

lemma low_index_le (v mv : Nat) (h1 : 1 ≤ v) (h2 : v ≤ mv) : low_index v mv ≤ 3 := by
  have hmv : (0 : ℚ) < (mv : ℚ) := by exact_mod_cast (by omega : 0 < mv)
  have hq0 : 0 ≤ ((v : ℚ) / (mv : ℚ)) * (((colors.length - 2 : Nat)) : ℚ) := by positivity
  have hq3 : ((v : ℚ) / (mv : ℚ)) * (((colors.length - 2 : Nat)) : ℚ) ≤ 3 := by
    have hv1 : (v : ℚ) / (mv : ℚ) ≤ 1 := by
      rw [div_le_one hmv]
      exact_mod_cast h2
    have hlen : (((colors.length - 2 : Nat)) : ℚ) = 3 := by norm_num [colors]
    rw [hlen]
    nlinarith
  unfold low_index toUsize
  exact ratTrunc_toNat_le _ hq0 hq3

/-- C10: whenever `1 ≤ value ≤ max_value`, the lower anchor index of
`scale_color` is at most 3, so both palette accesses `colors[low_index]`
and `colors[low_index + 1]` are within the 5-element palette; every grid
produced by `generate_mandelbrot` satisfies the precondition (each cell is
at most the returned maximum); and without the precondition the index can
exceed the palette bounds (`low_index 2 1 = 6`). -/
theorem scale_color_index_safe :
    (∀ v mv, 1 ≤ v → v ≤ mv →
      low_index v mv < colors.length ∧ low_index v mv + 1 < colors.length) ∧
    (∀ x_min x_max y_min y_max w h m,
      ∀ v ∈ (generate_mandelbrot x_min x_max y_min y_max w h m).1,
        v ≤ (generate_mandelbrot x_min x_max y_min y_max w h m).2) ∧
    colors.length ≤ low_index 2 1 := by
  refine ⟨?_, ?_, ?_⟩
  · intro v mv h1 h2
    have := low_index_le v mv h1 h2
    simp only [colors, List.length]
    omega
  · intro x_min x_max y_min y_max w h m v hv
    rw [generate_mandelbrot_eq] at hv ⊢
    exact foldl_maxOp_le _ 0 v hv
  · have h21 : low_index 2 1 = 6 := by
      have hq : ((2 : Nat) : ℚ) / ((1 : Nat) : ℚ) * (((colors.length - 2 : Nat)) : ℚ)
          = ((6 : Nat) : ℚ) := by
        norm_num [colors]
      rw [low_index, toUsize, hq, ratTrunc_natCast]
      rfl
    rw [h21]
    norm_num [colors]

/-- Witness for C10 at `value = 1`, `max_value = 2`. -/
theorem scale_color_index_safe_witness :
    low_index 1 2 < colors.length ∧ low_index 1 2 + 1 < colors.length :=
  scale_color_index_safe.1 1 2 (le_refl 1) (by norm_num)


/-- C3 counterexample: at origin `(0, 0)`, sizes `3 and 3`, terminal
`80 by 24`, the two ratios computed from the bounds returned by
`get_bounds` are NOT equal after the aspect-ratio correction (the
corrected x-ratio is `7/80`, the y-ratio `1/20`). -/
theorem get_bounds_ratio_counterexample :
    ¬ (((get_bounds 0 0 3 3 80 24).2.1 - (get_bounds 0 0 3 3 80 24).1) / ((80 : Nat) : ℚ)
      = (((get_bounds 0 0 3 3 80 24).2.2.2 - (get_bounds 0 0 3 3 80 24).2.2.1)
          / ((24 : Nat) : ℚ)) / (5/2)) := by
  norm_num [get_bounds]

/-- C3 amended: the correction expands the bounds symmetrically about the
origin (centres preserved).  When `x_ratio > y_ratio` the y-extent is
expanded by `terminal_height * x_ratio`, leaving the x-ratio unchanged and
making the new y-ratio `y_ratio + x_ratio / 2.5` (not `x_ratio`, so the
two ratios need not be equal afterwards — see the counterexample); when
`y_ratio > x_ratio` the x-extent is expanded by `terminal_width * y_ratio`,
leaving the y-ratio unchanged and making the new x-ratio
`x_ratio + y_ratio` (not `y_ratio`); when the ratios are already equal the
bounds are left at the naive centre-plus-half-extent values.  Here the
pre-correction x-ratio is `|x_size| / terminal_width` and the
pre-correction y-ratio is `(|y_size| / terminal_height) / 2.5`. -/
theorem get_bounds_correction_spec (ox oy xs ys : ℚ) (tw th : Nat)
    (htw : 1 ≤ tw) (hth : 1 ≤ th) :
    ((get_bounds ox oy xs ys tw th).1 + (get_bounds ox oy xs ys tw th).2.1 = 2 * ox) ∧
    ((get_bounds ox oy xs ys tw th).2.2.1 + (get_bounds ox oy xs ys tw th).2.2.2 = 2 * oy) ∧
    (|xs| / (tw : ℚ) > (|ys| / (th : ℚ)) / (5/2) →
      ((get_bounds ox oy xs ys tw th).2.1 - (get_bounds ox oy xs ys tw th).1) / (tw : ℚ)
        = |xs| / (tw : ℚ) ∧
      (((get_bounds ox oy xs ys tw th).2.2.2 - (get_bounds ox oy xs ys tw th).2.2.1)
          / (th : ℚ)) / (5/2)
        = (|ys| / (th : ℚ)) / (5/2) + (|xs| / (tw : ℚ)) / (5/2)) ∧
    ((|ys| / (th : ℚ)) / (5/2) > |xs| / (tw : ℚ) →
      (((get_bounds ox oy xs ys tw th).2.2.2 - (get_bounds ox oy xs ys tw th).2.2.1)
          / (th : ℚ)) / (5/2)
        = (|ys| / (th : ℚ)) / (5/2) ∧
      ((get_bounds ox oy xs ys tw th).2.1 - (get_bounds ox oy xs ys tw th).1) / (tw : ℚ)
        = |xs| / (tw : ℚ) + (|ys| / (th : ℚ)) / (5/2)) ∧
    (|xs| / (tw : ℚ) = (|ys| / (th : ℚ)) / (5/2) →
      get_bounds ox oy xs ys tw th
        = (ox - |xs| * (1/2), ox + |xs| * (1/2), oy - |ys| * (1/2), oy + |ys| * (1/2))) := by
  have htwq : ((tw : ℚ)) ≠ 0 := Nat.cast_ne_zero.mpr (by omega)
  have hthq : ((th : ℚ)) ≠ 0 := Nat.cast_ne_zero.mpr (by omega)
  have hx : (ox + |xs| * (1/2)) - (ox - |xs| * (1/2)) = |xs| := by ring
  have hy : (oy + |ys| * (1/2)) - (oy - |ys| * (1/2)) = |ys| := by ring
  simp only [get_bounds]
  rw [hx, hy]
  rcases lt_trichotomy (|xs| / (tw : ℚ)) ((|ys| / (th : ℚ)) / (5/2)) with hlt | heq | hgt
  · rw [if_pos hlt, if_neg (lt_asymm hlt)]
    refine ⟨by ring, by ring,
      fun hxy => absurd hxy (lt_asymm hlt),
      fun _ => ⟨by field_simp, by field_simp; ring⟩,
      fun heq2 => absurd hlt (by rw [heq2]; exact lt_irrefl _)⟩
  · rw [if_neg (by rw [heq]; exact lt_irrefl _), if_neg (by rw [heq]; exact lt_irrefl _)]
    exact ⟨by ring, by ring,
      fun hxy => absurd hxy (by rw [heq]; exact lt_irrefl _),
      fun hyx => absurd hyx (by rw [heq]; exact lt_irrefl _),
      fun _ => rfl⟩
  · rw [if_neg (lt_asymm hgt), if_pos hgt]
    refine ⟨by ring, by ring,
      fun _ => ⟨by field_simp, by field_simp; ring⟩,
      fun hyx => absurd hyx (lt_asymm hgt),
      fun heq2 => absurd hgt (by rw [heq2]; exact lt_irrefl _)⟩

/-- Witness for the amended C3 at origin `(0, 0)`, sizes `3 and 3`,
terminal `80 by 24`. -/
theorem get_bounds_correction_spec_witness :
    ((get_bounds 0 0 3 3 80 24).1 + (get_bounds 0 0 3 3 80 24).2.1 = 2 * 0) ∧
    ((get_bounds 0 0 3 3 80 24).2.2.1 + (get_bounds 0 0 3 3 80 24).2.2.2 = 2 * 0) ∧
    (|(3 : ℚ)| / ((80 : Nat) : ℚ) > (|(3 : ℚ)| / ((24 : Nat) : ℚ)) / (5/2) →
      ((get_bounds 0 0 3 3 80 24).2.1 - (get_bounds 0 0 3 3 80 24).1) / ((80 : Nat) : ℚ)
        = |(3 : ℚ)| / ((80 : Nat) : ℚ) ∧
      (((get_bounds 0 0 3 3 80 24).2.2.2 - (get_bounds 0 0 3 3 80 24).2.2.1)
          / ((24 : Nat) : ℚ)) / (5/2)
        = (|(3 : ℚ)| / ((24 : Nat) : ℚ)) / (5/2) + (|(3 : ℚ)| / ((80 : Nat) : ℚ)) / (5/2)) ∧
    ((|(3 : ℚ)| / ((24 : Nat) : ℚ)) / (5/2) > |(3 : ℚ)| / ((80 : Nat) : ℚ) →
      (((get_bounds 0 0 3 3 80 24).2.2.2 - (get_bounds 0 0 3 3 80 24).2.2.1)
          / ((24 : Nat) : ℚ)) / (5/2)
        = (|(3 : ℚ)| / ((24 : Nat) : ℚ)) / (5/2) ∧
      ((get_bounds 0 0 3 3 80 24).2.1 - (get_bounds 0 0 3 3 80 24).1) / ((80 : Nat) : ℚ)
        = |(3 : ℚ)| / ((80 : Nat) : ℚ) + (|(3 : ℚ)| / ((24 : Nat) : ℚ)) / (5/2)) ∧
    (|(3 : ℚ)| / ((80 : Nat) : ℚ) = (|(3 : ℚ)| / ((24 : Nat) : ℚ)) / (5/2) →
      get_bounds 0 0 3 3 80 24
        = (0 - |(3 : ℚ)| * (1/2), 0 + |(3 : ℚ)| * (1/2),
           0 - |(3 : ℚ)| * (1/2), 0 + |(3 : ℚ)| * (1/2))) :=
  get_bounds_correction_spec 0 0 3 3 80 24 (by norm_num) (by norm_num)

/-- C9: stored terminal dimensions are the reported dimensions minus one,
both at startup (with fallback `(80, 80)` on a failed size query) and on
resize; the subtraction is not total: a reported dimension of `0`
underflows (`none`, a panic in a debug build). -/
theorem resize_minus_one_partial :
    (∀ w h, 1 ≤ w → 1 ≤ h → resize_dims w h = some (w - 1, h - 1)) ∧
    (∀ w h, 1 ≤ w → 1 ≤ h → startup_dims (some (w, h)) = some (w - 1, h - 1)) ∧
    startup_dims none = some (80, 80) ∧
    resize_dims 0 1 = none ∧
    resize_dims 1 0 = none := by
  refine ⟨?_, ?_, rfl, rfl, rfl⟩
  · intro w h hw hh
    simp [resize_dims, usizeSub1, hw, hh]
  · intro w h hw hh
    simp [startup_dims, resize_dims, usizeSub1, hw, hh]

/-- Witness for C9 at reported size `2 by 3`. -/
theorem resize_minus_one_partial_witness :
    resize_dims 2 3 = some (2 - 1, 3 - 1) :=
  resize_minus_one_partial.1 2 3 (by norm_num) (by norm_num)

/-- C4 counterexample: a mouse-button-down with the middle button does
NOT leave the view state unchanged — the origin is recomputed from the
click position before the button is inspected (src/main.rs:343-350). -/
theorem unlisted_event_counterexample :
    (step ({ initialState 80 40 with bounds := (-1, 1, -1, 1), changed := false })
        (Event.Mouse (MouseKind.Down MouseButton.Middle) 0 0)).origin_x
      ≠ ({ initialState 80 40 with
            bounds := (-1, 1, -1, 1), changed := false } : AppState).origin_x := by
  norm_num [step, handle_event, redraw, initialState]

/-- C4 amended: mouse events other than button-down, non-character keys,
failed reads and unlisted character keys leave the whole state unchanged;
a button-down with a button other than left or right leaves the extents,
the iteration budget and the dirty flag unchanged but DOES update the
origin via the click-to-plane mapping. -/
theorem unlisted_event_spec :
    (∀ s row col, handle_event s (Event.Mouse MouseKind.Other row col) = s) ∧
    (∀ s, handle_event s Event.KeyOther = s) ∧
    (∀ s, handle_event s Event.ReadError = s) ∧
    (∀ s k, k ≠ 'q' → k ≠ 'r' → k ≠ 'c' → k ≠ 'i' → k ≠ 'j' →
      handle_event s (Event.Key k) = s) ∧
    (∀ s row col,
      (handle_event s (Event.Mouse (MouseKind.Down MouseButton.Middle) row col)).x_size
          = s.x_size ∧
      (handle_event s (Event.Mouse (MouseKind.Down MouseButton.Middle) row col)).y_size
          = s.y_size ∧
      (handle_event s (Event.Mouse (MouseKind.Down MouseButton.Middle) row col)).iterations
          = s.iterations ∧
      (handle_event s (Event.Mouse (MouseKind.Down MouseButton.Middle) row col)).changed
          = s.changed ∧
      (handle_event s (Event.Mouse (MouseKind.Down MouseButton.Middle) row col)).origin_x
          = (((col : ℚ) / (s.terminal_width : ℚ)) * (s.bounds.2.1 - s.bounds.1)) + s.bounds.1 ∧
      (handle_event s (Event.Mouse (MouseKind.Down MouseButton.Middle) row col)).origin_y
          = (((row : ℚ) / (s.terminal_height : ℚ)) * (s.bounds.2.2.2 - s.bounds.2.2.1))
            + s.bounds.2.2.1) := by
  refine ⟨fun s row col => rfl, fun s => rfl, fun s => rfl, ?_, ?_⟩
  · intro s k hq hr hc hi hj
    simp [handle_event, hq, hr, hc, hi, hj]
  · intro s row col
    refine ⟨rfl, rfl, rfl, rfl, rfl, rfl⟩

/-- Witness for the amended C4 at the unlisted key `'x'`. -/
theorem unlisted_event_spec_witness :
    handle_event (initialState 80 40) (Event.Key 'x') = initialState 80 40 :=
  unlisted_event_spec.2.2.2.1 (initialState 80 40) 'x'
    (by decide) (by decide) (by decide) (by decide) (by decide)

/-- C6: on any mouse-button-down the origin is recomputed as
`origin_x = (col / terminal_width) * (x_max - x_min) + x_min` and
`origin_y = (row / terminal_height) * (y_max - y_min) + y_min` from the
bounds stored at the most recent redraw; in particular with bounds
`(-1, 1, -1, 1)` and terminal `80 by 40`, a click at row 20, column 40
yields the origin `(0, 0)` exactly. -/
theorem click_mapping_spec :
    (∀ (s : AppState) (b : MouseButton) (row col : Nat),
      (handle_event s (Event.Mouse (MouseKind.Down b) row col)).origin_x
        = (((col : ℚ) / (s.terminal_width : ℚ)) * (s.bounds.2.1 - s.bounds.1)) + s.bounds.1 ∧
      (handle_event s (Event.Mouse (MouseKind.Down b) row col)).origin_y
        = (((row : ℚ) / (s.terminal_height : ℚ)) * (s.bounds.2.2.2 - s.bounds.2.2.1))
          + s.bounds.2.2.1) ∧
    (handle_event ({ initialState 80 40 with bounds := (-1, 1, -1, 1) })
        (Event.Mouse (MouseKind.Down MouseButton.Left) 20 40)).origin_x = 0 ∧
    (handle_event ({ initialState 80 40 with bounds := (-1, 1, -1, 1) })
        (Event.Mouse (MouseKind.Down MouseButton.Left) 20 40)).origin_y = 0 := by
  refine ⟨?_, ?_, ?_⟩
  · intro s b row col
    cases b <;> exact ⟨rfl, rfl⟩
  · norm_num [handle_event, initialState]
  · norm_num [handle_event, initialState]

lemma iter_inc_preserves (it : Nat) (h1 : 1 ≤ it) (h2 : it < 65536)
    (h3 : 1000 ≤ it → it % 1000 < 100) :
    1 ≤ iter_inc it ∧ iter_inc it < 65536 ∧
    (1000 ≤ iter_inc it → iter_inc it % 1000 < 100) := by
  unfold iter_inc
  split_ifs with ha hb hc <;> omega

lemma iter_dec_preserves (it : Nat) (h1 : 1 ≤ it) (h2 : it < 65536)
    (h3 : 1000 ≤ it → it % 1000 < 100) :
    1 ≤ iter_dec it ∧ iter_dec it < 65536 ∧
    (1000 ≤ iter_dec it → iter_dec it % 1000 < 100) := by
  unfold iter_dec
  split_ifs with ha hb hc hd <;> omega

lemma redraw_iterations (s : AppState) : (redraw s).1.iterations = s.iterations := by
  simp only [redraw]
  split_ifs <;> rfl

lemma step_key_i_iterations (s : AppState) :
    (step s (Event.Key 'i')).iterations = iter_inc s.iterations := by
  rw [step, redraw_iterations]
  simp [handle_event]

lemma step_key_j_iterations (s : AppState) :
    (step s (Event.Key 'j')).iterations = iter_dec s.iterations := by
  rw [step, redraw_iterations]
  simp [handle_event]

lemma iter_foldl_invariant (evs : List Event) :
    ∀ s : AppState, (∀ e ∈ evs, e = Event.Key 'i' ∨ e = Event.Key 'j') →
    1 ≤ s.iterations → s.iterations < 65536 →
    (1000 ≤ s.iterations → s.iterations % 1000 < 100) →
    1 ≤ (evs.foldl step s).iterations ∧ (evs.foldl step s).iterations < 65536 ∧
    (1000 ≤ (evs.foldl step s).iterations → (evs.foldl step s).iterations % 1000 < 100) := by
  induction evs with
  | nil => exact fun s _ h1 h2 h3 => ⟨h1, h2, h3⟩
  | cons e evs ih =>
    intro s hmem h1 h2 h3
    rw [List.foldl_cons]
    rcases hmem e (List.mem_cons_self e evs) with he | he <;> subst he
    · have hstep := step_key_i_iterations s
      have hpres := iter_inc_preserves s.iterations h1 h2 h3
      exact ih _ (fun e he => hmem e (List.mem_cons_of_mem _ he))
        (hstep ▸ hpres.1) (hstep ▸ hpres.2.1) (hstep ▸ hpres.2.2)
    · have hstep := step_key_j_iterations s
      have hpres := iter_dec_preserves s.iterations h1 h2 h3
      exact ih _ (fun e he => hmem e (List.mem_cons_of_mem _ he))
        (hstep ▸ hpres.1) (hstep ▸ hpres.2.1) (hstep ▸ hpres.2.2)

/-- C7: the decrease transition has a floor of 1 (for every input), and
starting from the default budget of 50 any finite sequence of
increase/decrease key events leaves the budget at least 1 (iteration
additions wrap modulo `2 ^ 16` as in the `u16` source; the wrap can never
produce 0 from a reachable budget). -/
theorem iterations_stay_positive :
    (∀ it, 1 ≤ iter_dec it) ∧
    (∀ (tw th : Nat) (evs : List Event),
      (∀ e ∈ evs, e = Event.Key 'i' ∨ e = Event.Key 'j') →
      1 ≤ (evs.foldl step (initialState tw th)).iterations) := by
  constructor
  · intro it
    unfold iter_dec
    split_ifs <;> omega
  · intro tw th evs hmem
    exact (iter_foldl_invariant evs (initialState tw th) hmem
      (by norm_num [initialState]) (by norm_num [initialState])
      (by norm_num [initialState])).1

/-- Witness for C7 on the event list `[j, j, i]`. -/
theorem iterations_stay_positive_witness :
    1 ≤ (([Event.Key 'j', Event.Key 'j', Event.Key 'i'].foldl step
      (initialState 80 40))).iterations :=
  iterations_stay_positive.2 80 40 [Event.Key 'j', Event.Key 'j', Event.Key 'i']
    (by intro e he; fin_cases he <;> simp)

/-- C8: on a redraw with the dirty flag set, at most one overlay is
printed, chosen by strict precedence help, then iteration count, then
coordinates; only the printed overlay flag is cleared, and a pending
overlay flag that was not printed survives to a later redraw. -/
theorem overlay_priority (s : AppState) (h : s.changed = true) :
    ((redraw s).2 = some Overlay.help ↔ s.show_help = true) ∧
    ((redraw s).2 = some Overlay.iterations ↔
      (s.show_help = false ∧ s.show_iterations = true)) ∧
    ((redraw s).2 = some Overlay.coords ↔
      (s.show_help = false ∧ s.show_iterations = false ∧ s.show_coords = true)) ∧
    (redraw s).1.show_help = false ∧
    (redraw s).1.show_iterations = (s.show_iterations && s.show_help) ∧
    (redraw s).1.show_coords = (s.show_coords && (s.show_help || s.show_iterations)) := by
  rw [redraw]
  rw [if_pos h]
  cases hh : s.show_help <;> cases hi : s.show_iterations <;> cases hc : s.show_coords <;>
    simp [hh, hi, hc]

/-- Witness for C8 at the initial state (dirty, help pending). -/
theorem overlay_priority_witness :
    ((redraw (initialState 80 40)).2 = some Overlay.help
      ↔ (initialState 80 40).show_help = true) ∧
    ((redraw (initialState 80 40)).2 = some Overlay.iterations ↔
      ((initialState 80 40).show_help = false ∧
        (initialState 80 40).show_iterations = true)) ∧
    ((redraw (initialState 80 40)).2 = some Overlay.coords ↔
      ((initialState 80 40).show_help = false ∧
        (initialState 80 40).show_iterations = false ∧
        (initialState 80 40).show_coords = true)) ∧
    (redraw (initialState 80 40)).1.show_help = false ∧
    (redraw (initialState 80 40)).1.show_iterations
      = ((initialState 80 40).show_iterations && (initialState 80 40).show_help) ∧
    (redraw (initialState 80 40)).1.show_coords
      = ((initialState 80 40).show_coords &&
          ((initialState 80 40).show_help || (initialState 80 40).show_iterations)) :=
  overlay_priority (initialState 80 40) rfl

end Mandelbrot
